import Mathlib

/-!
Verification development for the Option-Max-Pain analytics engine.

The definitions below are a shallow embedding of the TypeScript sources:

* `src/lib/delta-calculator.ts`  — Black-Scholes delta/gamma, delta management,
  per-strike aggregation, gamma flip, max pain;
* `src/lib/expiration-filter.ts` — standardized expiration filtering;
* `src/lib/data-providers.ts`    — the provider fallback cascade (`ProviderManager`);
* the data cache module (`getCachedOptionsChain`).

JavaScript numbers are modelled as real numbers (`ℝ`) where the code uses
transcendental functions (`Math.exp`, `Math.log`, `Math.sqrt`), and as
rationals (`ℚ`) for the purely arithmetic/combinatorial computations, so that
concrete instances can be evaluated by `decide`.  JavaScript `Map`s are
modelled as association lists in insertion order (`Map.set` on a fresh key
appends; on an existing key it updates in place), and `Array.prototype.sort`
with an ascending numeric comparator is modelled by `List.insertionSort`.
-/

set_option maxHeartbeats 1000000

/-- The option type enum `'call' | 'put'`. -/
inductive OptionType where
  | call
  | put
  deriving DecidableEq, Repr

/-- `OptionData` from `delta-calculator.ts` (same shape as `OptionContract` from
`options-api`): one contract row.  Parametric in the number type: `ℚ` is used
for the arithmetic claims, `ℝ` when fed into Black-Scholes. -/
structure OptionData (α : Type) where
  strike : α
  openInterest : α
  volume : Option α
  impliedVolatility : Option α
  type : OptionType
  expiration : α
  deriving DecidableEq, Repr

/-- `DeltaData` from `delta-calculator.ts`: per-contract derived figures. -/
structure DeltaData (α : Type) where
  strike : α
  delta : α
  gamma : α
  totalDelta : α
  totalGamma : α
  openInterest : α
  volume : α
  type : OptionType
  hedgingShares : α
  gammaExposure : α
  deriving DecidableEq, Repr

/-! ## Black-Scholes pricing model (`normCDF`, `normPDF`, `calculateDelta`,
`calculateGamma` from `delta-calculator.ts`), over `ℝ`. -/

/-- Abramowitz–Stegun constant `a1`. -/
def acdf1 : ℝ := 0.254829592
/-- Abramowitz–Stegun constant `a2`. -/
def acdf2 : ℝ := -0.284496736
/-- Abramowitz–Stegun constant `a3`. -/
def acdf3 : ℝ := 1.421413741
/-- Abramowitz–Stegun constant `a4`. -/
def acdf4 : ℝ := -1.453152027
/-- Abramowitz–Stegun constant `a5`. -/
def acdf5 : ℝ := 1.061405429
/-- Abramowitz–Stegun constant `p`. -/
def pcdf : ℝ := 0.3275911

/-- The polynomial-times-exponential part of `normCDF`: the value `y` computed
from the rescaled argument `u = |x| / sqrt 2` (the source reassigns `x`). -/
noncomputable def yApprox (u : ℝ) : ℝ :=
  let t := 1 / (1 + pcdf * u)
  1.0 - (((((acdf5 * t + acdf4) * t) + acdf3) * t + acdf2) * t + acdf1) * t *
    Real.exp (-(u * u))

/-- `normCDF` from `delta-calculator.ts`: cumulative normal distribution via the
Abramowitz–Stegun rational approximation.  `sign = x < 0 ? -1 : 1`. -/
noncomputable def normCDF (x : ℝ) : ℝ :=
  let s : ℝ := if x < 0 then -1 else 1
  let u := |x| / Real.sqrt 2.0
  0.5 * (1.0 + s * yApprox u)

/-- `normPDF` from `delta-calculator.ts`: standard normal density. -/
noncomputable def normPDF (x : ℝ) : ℝ :=
  Real.exp (-0.5 * x * x) / Real.sqrt (2 * Real.pi)

/-- The Black-Scholes `d1` term shared by `calculateDelta` and `calculateGamma`. -/
noncomputable def bsD1 (spotPrice strike timeToExpiry volatility riskFreeRate : ℝ) : ℝ :=
  (Real.log (spotPrice / strike) +
      (riskFreeRate + 0.5 * volatility * volatility) * timeToExpiry) /
    (volatility * Real.sqrt timeToExpiry)

/-- `calculateDelta` from `delta-calculator.ts`. -/
noncomputable def calculateDelta (spotPrice strike timeToExpiry volatility riskFreeRate : ℝ)
    (optionType : OptionType) : ℝ :=
  if timeToExpiry ≤ 0 then
    match optionType with
    | .call => if spotPrice > strike then 1 else 0
    | .put => if spotPrice < strike then -1 else 0
  else
    let d1 := bsD1 spotPrice strike timeToExpiry volatility riskFreeRate
    match optionType with
    | .call => normCDF d1
    | .put => -normCDF (-d1)

/-- `calculateGamma` from `delta-calculator.ts`. -/
noncomputable def calculateGamma (spotPrice strike timeToExpiry volatility riskFreeRate : ℝ) : ℝ :=
  if timeToExpiry ≤ 0 ∨ spotPrice ≤ 0 ∨ volatility ≤ 0 then 0
  else
    let d1 := bsD1 spotPrice strike timeToExpiry volatility riskFreeRate
    normPDF d1 / (spotPrice * volatility * Real.sqrt timeToExpiry)

/-! ## Association-list model of JavaScript `Map`

`lookupA` is `Map.get`, `setA` is `Map.set` (updates the first matching key in
place, otherwise appends — JavaScript `Map` preserves insertion order), `delA`
is `Map.delete`. -/

/-- `Map.get`: first value stored under the key. -/
def lookupA {κ β : Type} [DecidableEq κ] : List (κ × β) → κ → Option β
  | [], _ => none
  | e :: m, k => if e.1 = k then some e.2 else lookupA m k

/-- `Map.set`: update the entry in place if the key is present, else append. -/
def setA {κ β : Type} [DecidableEq κ] : List (κ × β) → κ → β → List (κ × β)
  | [], k, v => [(k, v)]
  | e :: m, k, v => if e.1 = k then (k, v) :: m else e :: setA m k v

/-- `Map.delete`: drop the entry stored under the key. -/
def delA {κ β : Type} [DecidableEq κ] : List (κ × β) → κ → List (κ × β)
  | [], _ => []
  | e :: m, k => if e.1 = k then m else e :: delA m k

/-! ## Per-strike aggregation (`aggregateDeltaByStrike` from
`delta-calculator.ts`), over `ℚ`. -/

/-- The per-strike record `{ delta, gamma, buyPressure, sellPressure }` built by
`aggregateDeltaByStrike` (the `delta` field accumulates `hedgingShares` and the
`gamma` field accumulates `gammaExposure`, as in the source). -/
structure StrikeAgg where
  delta : ℚ
  gamma : ℚ
  buyPressure : ℚ
  sellPressure : ℚ
  deriving DecidableEq, Repr

/-- One step of the `aggregateDeltaByStrike` loop body. -/
def aggStep (aggregated : List (ℚ × StrikeAgg)) (data : DeltaData ℚ) : List (ℚ × StrikeAgg) :=
  let current := (lookupA aggregated data.strike).getD ⟨0, 0, 0, 0⟩
  setA aggregated data.strike
    { delta := current.delta + data.hedgingShares,
      gamma := current.gamma + data.gammaExposure,
      buyPressure := current.buyPressure +
        (if 0 < data.hedgingShares then data.hedgingShares else 0),
      sellPressure := current.sellPressure +
        (if data.hedgingShares < 0 then |data.hedgingShares| else 0) }

/-- `aggregateDeltaByStrike` from `delta-calculator.ts`. -/
def aggregateDeltaByStrike (deltaData : List (DeltaData ℚ)) : List (ℚ × StrikeAgg) :=
  deltaData.foldl aggStep []

/-! ## Gamma flip (`calculateGammaFlip` from `delta-calculator.ts`). -/

/-- Comparator used to sort `(strike, gex)` entries ascending by strike
(the source sorts with `(a, b) => a.strike - b.strike`). -/
def ltePair (a b : ℚ × ℚ) : Prop := a.1 ≤ b.1

instance : DecidableRel ltePair := fun a b => inferInstanceAs (Decidable (a.1 ≤ b.1))

instance : IsTotal (ℚ × ℚ) ltePair := ⟨fun a b => le_total a.1 b.1⟩

instance : IsTrans (ℚ × ℚ) ltePair := ⟨fun _ _ _ h1 h2 => le_trans h1 h2⟩

/-- The aggregated `(strike, gex)` entries sorted ascending by strike. -/
def gexEntries (deltaData : List (DeltaData ℚ)) : List (ℚ × ℚ) :=
  List.insertionSort ltePair
    ((aggregateDeltaByStrike deltaData).map fun e => (e.1, e.2.gamma))

/-- Strictly opposite signs, exactly the test
`(current.gex > 0 && next.gex < 0) || (current.gex < 0 && next.gex > 0)` of the
`calculateGammaFlip` loop. -/
def OppSign (x y : ℚ) : Prop := (0 < x ∧ y < 0) ∨ (x < 0 ∧ 0 < y)

instance (x y : ℚ) : Decidable (OppSign x y) :=
  inferInstanceAs (Decidable ((0 < x ∧ y < 0) ∨ (x < 0 ∧ 0 < y)))

/-- The scan of `calculateGammaFlip`: walk adjacent entries, return the
interpolated flip price at the first strict sign change. -/
def findGammaFlip : List (ℚ × ℚ) → Option ℚ
  | a :: b :: rest =>
    if OppSign a.2 b.2 then
      some (a.1 + |a.2| / (|a.2| + |b.2|) * (b.1 - a.1))
    else findGammaFlip (b :: rest)
  | _ => none

/-- `calculateGammaFlip` from `delta-calculator.ts`. -/
def calculateGammaFlip (deltaData : List (DeltaData ℚ)) : Option ℚ :=
  if deltaData.length = 0 then none
  else findGammaFlip (gexEntries deltaData)

/-- The list of adjacent pairs of a list. -/
def adjPairs {β : Type} (l : List β) : List (β × β) := l.zip l.tail

/-! ## Max pain (`calculateMaxPain` from `delta-calculator.ts`), over `ℚ`. -/

/-- `MaxPainResult` from `delta-calculator.ts`. -/
structure MaxPainResult where
  maxPainStrike : ℚ
  maxPainValue : ℚ
  expirationDays : ℚ
  totalOpenInterest : ℚ
  strikeCount : ℕ
  isReliable : Bool
  deriving DecidableEq, Repr

/-- The per-strike `{ calls, puts }` open-interest record. -/
structure StrikeOI where
  calls : ℚ
  puts : ℚ
  deriving DecidableEq, Repr

/-- One step of the `optionsByStrike` grouping loop of `calculateMaxPain`. -/
def byStrikeStep (m : List (ℚ × StrikeOI)) (opt : OptionData ℚ) : List (ℚ × StrikeOI) :=
  let existing := (lookupA m opt.strike).getD ⟨0, 0⟩
  setA m opt.strike
    (match opt.type with
     | .call => ⟨existing.calls + opt.openInterest, existing.puts⟩
     | .put => ⟨existing.calls, existing.puts + opt.openInterest⟩)

/-- The `optionsByStrike` map of `calculateMaxPain`: open interest summed per
strike, split into calls and puts. -/
def optionsByStrike (expirationOptions : List (OptionData ℚ)) : List (ℚ × StrikeOI) :=
  expirationOptions.foldl byStrikeStep []

/-- The two `forEach` passes of `calculateMaxPain` accumulating the total pain
for one candidate expiration price (each pass guards on positive open
interest). -/
def painAt (byStrike : List (ℚ × StrikeOI)) (expirationPrice : ℚ) : ℚ :=
  (byStrike.map fun e =>
    if e.1 < expirationPrice ∧ 0 < e.2.calls then
      (expirationPrice - e.1) * e.2.calls * 100 else 0).sum +
  (byStrike.map fun e =>
    if expirationPrice < e.1 ∧ 0 < e.2.puts then
      (e.1 - expirationPrice) * e.2.puts * 100 else 0).sum

/-- The argmin loop of `calculateMaxPain`.  The accumulator is
`(minPain, maxPainStrike)`; `none` models the initial `Infinity`, so the guard
`totalPain < minPain` is vacuously true on the first candidate. -/
def maxPainLoop (byStrike : List (ℚ × StrikeOI)) :
    List ℚ → Option ℚ × ℚ → Option ℚ × ℚ
  | [], acc => acc
  | p :: rest, (minPain, argStrike) =>
    let totalPain := painAt byStrike p
    let proceed : Bool := match minPain with
      | none => true
      | some m => decide (totalPain < m)
    if proceed then maxPainLoop byStrike rest (some totalPain, p)
    else maxPainLoop byStrike rest (minPain, argStrike)

/-- The distinct strikes of the contracts at the target expiration, ascending
(`Array.from(new Set(...)).sort((a, b) => a - b)`; the JavaScript `Set` keeps
first-occurrence insertion order, which the numeric sort makes irrelevant). -/
def strikesOf (options : List (OptionData ℚ)) (expirationDays : ℚ) : List ℚ :=
  List.insertionSort (· ≤ ·)
    (((options.filter fun opt => opt.expiration == expirationDays).map
      fun opt => opt.strike).dedup)

/-- `calculateMaxPain` from `delta-calculator.ts`. -/
def calculateMaxPain (options : List (OptionData ℚ)) (expirationDays : ℚ)
    (spotPrice : Option ℚ) : Option MaxPainResult :=
  let expirationOptions := options.filter fun opt => opt.expiration == expirationDays
  if expirationOptions.length = 0 then none
  else
    let strikes := strikesOf options expirationDays
    if strikes.length = 0 then none
    else
      let byStrike := optionsByStrike expirationOptions
      let result := maxPainLoop byStrike strikes (none, strikes.headD 0)
      let minPain := result.1
      let maxPainStrike := result.2
      let totalOI := (byStrike.map fun e => e.2.calls + e.2.puts).sum
      let minDataStrike := strikes.headD 0
      let maxDataStrike := strikes.getLastD 0
      let isAtEdge : Bool := maxPainStrike == minDataStrike || maxPainStrike == maxDataStrike
      let isReliable0 : Bool := decide (0 < totalOI) && decide (8 ≤ strikes.length) && !isAtEdge
      let isReliable : Bool :=
        if isReliable0 &&
            (match spotPrice with
             | some sp => decide (0 < sp) && decide ((0.4 : ℚ) < |maxPainStrike - sp| / sp)
             | none => false) then false
        else isReliable0
      some { maxPainStrike, maxPainValue := minPain.getD 0, expirationDays,
             totalOpenInterest := totalOI, strikeCount := strikes.length, isReliable }

/-- Claim-side definition (from the specification's words): the call open
interest standing at strike `k` for the target expiration. -/
def callOIAt (expirationOptions : List (OptionData ℚ)) (k : ℚ) : ℚ :=
  ((expirationOptions.filter fun o => o.type == OptionType.call && o.strike == k).map
    fun o => o.openInterest).sum

/-- Claim-side definition (from the specification's words): the put open
interest standing at strike `k` for the target expiration. -/
def putOIAt (expirationOptions : List (OptionData ℚ)) (k : ℚ) : ℚ :=
  ((expirationOptions.filter fun o => o.type == OptionType.put && o.strike == k).map
    fun o => o.openInterest).sum

/-- Claim-side definition of pain at a settlement price `p` (from the
specification's words): `Σ_{k<p} callOI(k)·(p−k)·100 + Σ_{k>p} putOI(k)·(k−p)·100`
over the distinct strikes at the target expiration. -/
def claimPain (options : List (OptionData ℚ)) (expirationDays p : ℚ) : ℚ :=
  let expOpts := options.filter fun o => o.expiration == expirationDays
  let ks := strikesOf options expirationDays
  ((ks.filter fun k => decide (k < p)).map fun k => callOIAt expOpts k * (p - k) * 100).sum +
  ((ks.filter fun k => decide (p < k)).map fun k => putOIAt expOpts k * (k - p) * 100).sum

/-! ## Delta management (`calculateDeltaManagement` from `delta-calculator.ts`),
over `ℝ` (it feeds Black-Scholes). -/

/-- The `reduce` computing a side's total quantity in `calculateDeltaManagement`
(`quantity = open interest, or volume when volume-weighting is selected`). -/
noncomputable def totalQty (options : List (OptionData ℝ)) (ty : OptionType)
    (useVolume : Bool) : ℝ :=
  (options.filter fun opt => opt.type == ty).foldl
    (fun sum opt => sum + (if useVolume then opt.volume.getD 0 else opt.openInterest)) 0

/-- The ratio computed by `calculateDeltaManagement` (named `putCallRatio` in
the source): `totalPutQty > 0 ? totalCallQty / totalPutQty : 1`. -/
noncomputable def putCallRatioOf (options : List (OptionData ℝ)) (useVolume : Bool) : ℝ :=
  let totalCallQty := totalQty options .call useVolume
  let totalPutQty := totalQty options .put useVolume
  if 0 < totalPutQty then totalCallQty / totalPutQty else 1

/-- The call-side hedge multiplier of `calculateDeltaManagement`. -/
noncomputable def callHedgeMultiplierOf (options : List (OptionData ℝ))
    (coveredCallMultiplier : ℝ) (useVolume : Bool) : ℝ :=
  let r := putCallRatioOf options useVolume
  if 1.5 < r then max 0.4 (coveredCallMultiplier - (r - 1.5) * 0.1)
  else coveredCallMultiplier

/-- `calculateDeltaManagement` from `delta-calculator.ts`.  The JavaScript
truthiness of `option.impliedVolatility || volatility` makes an implied
volatility of 0 fall back to the configured volatility. -/
noncomputable def calculateDeltaManagement (spotPrice : ℝ) (options : List (OptionData ℝ))
    (volatility riskFreeRate coveredCallMultiplier : ℝ) (useVolume : Bool) :
    List (DeltaData ℝ) :=
  options.map fun option =>
    let quantity := if useVolume then option.volume.getD 0 else option.openInterest
    let timeToExpiry := option.expiration / 365
    let vol := match option.impliedVolatility with
      | some iv => if iv = 0 then volatility else iv
      | none => volatility
    let delta := calculateDelta spotPrice option.strike timeToExpiry vol riskFreeRate option.type
    let gamma := calculateGamma spotPrice option.strike timeToExpiry vol riskFreeRate
    let hedgeMultiplier := if option.type == OptionType.call then
        callHedgeMultiplierOf options coveredCallMultiplier useVolume
      else coveredCallMultiplier
    let totalDelta := delta * quantity * 100 * hedgeMultiplier
    let totalGamma := gamma * quantity * 100 * hedgeMultiplier
    { strike := option.strike, delta, gamma, totalDelta, totalGamma,
      openInterest := option.openInterest, volume := option.volume.getD 0,
      type := option.type, hedgingShares := -totalDelta,
      gammaExposure := if option.type == OptionType.call then -totalGamma else totalGamma }

/-- Claim-side definition (from the specification's words): the put/call
ratio `totalCallQuantity > 0 ? totalPutQuantity / totalCallQuantity : 1`. -/
noncomputable def claimPutCallRatio (options : List (OptionData ℝ)) (useVolume : Bool) : ℝ :=
  let qty := fun (o : OptionData ℝ) => if useVolume then o.volume.getD 0 else o.openInterest
  let totalCall := ((options.filter fun o => o.type == OptionType.call).map qty).sum
  let totalPut := ((options.filter fun o => o.type == OptionType.put).map qty).sum
  if 0 < totalCall then totalPut / totalCall else 1

/-! ## Standardized expiration filter (`expiration-filter.ts`). -/

/-- The three accessor values of a JavaScript `Date` read by the filter:
`getDate()` (day of month, 1–31), `getMonth()` (0–11, 0 = January) and
`getDay()` (0–6, 5 = Friday). -/
structure SimpleDate where
  day : ℕ
  month : ℕ
  dayOfWeek : ℕ
  deriving DecidableEq, Repr

/-- `isMonthlyOrQuarterlyExpiration` from `expiration-filter.ts`. -/
def isMonthlyOrQuarterlyExpiration (d : SimpleDate) : Bool :=
  let day := d.day
  let month := d.month
  let dayOfWeek := d.dayOfWeek
  let isQuarterMonth := month == 2 || month == 5 || month == 8 || month == 11
  let isQuarterEnd := isQuarterMonth &&
    (dayOfWeek == 5 && decide (25 ≤ day) && decide (day ≤ 31))
  let isThirdFriday := decide (15 ≤ day) && decide (day ≤ 21) && dayOfWeek == 5
  let isLastFriday := !isQuarterMonth && decide (22 ≤ day) && decide (day ≤ 28) && dayOfWeek == 5
  let isMonthlyFriday := !isQuarterMonth && decide (15 ≤ day) && decide (day ≤ 31) && dayOfWeek == 5
  isThirdFriday || isLastFriday || isMonthlyFriday || isQuarterEnd

/-- Quarter-end month per the claim: March, June, September or December. -/
def QuarterMonth (d : SimpleDate) : Prop :=
  d.month = 2 ∨ d.month = 5 ∨ d.month = 8 ∨ d.month = 11

instance (d : SimpleDate) : Decidable (QuarterMonth d) :=
  inferInstanceAs (Decidable (d.month = 2 ∨ d.month = 5 ∨ d.month = 8 ∨ d.month = 11))

/-- Claim-side definition (from the claim's words): accepted iff Friday and
(day ∈ [15,21], or day ∈ [22,28] in a non-quarter month), or Friday in a
quarter month with day ∈ [25,31]. -/
def claimExpirationRule (d : SimpleDate) : Prop :=
  (d.dayOfWeek = 5 ∧ ((15 ≤ d.day ∧ d.day ≤ 21) ∨
    (22 ≤ d.day ∧ d.day ≤ 28 ∧ ¬QuarterMonth d))) ∨
  (QuarterMonth d ∧ d.dayOfWeek = 5 ∧ 25 ≤ d.day ∧ d.day ≤ 31)

instance (d : SimpleDate) : Decidable (claimExpirationRule d) := by
  unfold claimExpirationRule
  infer_instance

/-- Amended rule: the non-quarter-month window is `[22,31]`, not `[22,28]`
(the source's `isMonthlyFriday` accepts any Friday on days 15–31 of a
non-quarter month). -/
def amendedExpirationRule (d : SimpleDate) : Prop :=
  (d.dayOfWeek = 5 ∧ ((15 ≤ d.day ∧ d.day ≤ 21) ∨
    (22 ≤ d.day ∧ d.day ≤ 31 ∧ ¬QuarterMonth d))) ∨
  (QuarterMonth d ∧ d.dayOfWeek = 5 ∧ 25 ≤ d.day ∧ d.day ≤ 31)

/-! ## Provider fallback cascade (`ProviderManager.fetchOptionsChain` from
`data-providers.ts`) and the data cache (`getCachedOptionsChain`).

A provider's network behaviour for the request under consideration is modelled
by a fixed `POutcome` (a normalized chain, or a raised error message), and the
synthetic generator `generateMockData` — whose output is randomized — is a
parameter `genMock` of the model. -/

/-- `OptionsChain` from `options-api`: the normalized chain. -/
structure OptionsChain where
  ticker : String
  companyName : Option String
  spotPrice : ℚ
  change24h : Option ℚ
  change24hPercent : Option ℚ
  impliedVolatility : Option ℚ
  calls : List (OptionData ℚ)
  puts : List (OptionData ℚ)
  deriving DecidableEq, Repr, Inhabited

/-- The outcome of one provider `fetchOptionsChain` call: a chain, or a raised
error carrying its message. -/
inductive POutcome where
  | ok (chain : OptionsChain)
  | err (msg : String)
  deriving DecidableEq, Repr

/-- A configured provider: its `name` and the outcome its fetch produces. -/
structure Provider where
  name : String
  outcome : POutcome
  deriving DecidableEq, Repr

/-- Leading-match test for the substring scan (`pat` matches at the head of
`s`). -/
def subAt : List Char → List Char → Bool
  | [], _ => true
  | _ :: _, [] => false
  | p :: ps, c :: cs => p == c && subAt ps cs

/-- Substring test on character lists. -/
def hasSub : List Char → List Char → Bool
  | pat, [] => pat.isEmpty
  | pat, c :: cs => subAt pat (c :: cs) || hasSub pat cs

/-- `String.prototype.includes`. -/
def strIncludes (s pat : String) : Bool := hasSub pat.data s.data

/-- The cascade's auth-class test on a caught error message:
`includes('invalid') || includes('unauthorized') || includes('403') ||
includes('401')`. -/
def isAuthErrorMessage (msg : String) : Bool :=
  strIncludes msg "invalid" || strIncludes msg "unauthorized" ||
    strIncludes msg "403" || strIncludes msg "401"

/-- `CRYPTO_TICKERS` from `ticker-aliases`. -/
def CRYPTO_TICKERS : List String :=
  ["BTC", "ETH", "SOL", "XRP", "ADA", "DOGE", "MATIC", "AVAX", "DOT", "LINK"]

/-- `isCryptoTicker` from `ticker-aliases`. -/
def isCryptoTicker (ticker : String) : Bool :=
  CRYPTO_TICKERS.contains ticker.toUpper

/-- The mutable fields of `ProviderManager` relevant to the cascade. -/
structure ManagerState where
  providers : List Provider
  cryptoProviders : List Provider
  currentProviderIndex : ℕ
  hasWarnedAboutAuthFailure : Bool
  authFailureDetected : Bool
  deriving DecidableEq, Repr

/-- How the equity loop body classifies one provider attempt: a usable result,
an auth-class error (breaks the loop), or any other failure (continues).  An
`ok` result with no contracts is re-thrown as
`Provider ${name} returned 0 options after filtering for ${ticker}` and then
classified by the same message test. -/
inductive AttemptClass where
  | success (chain : OptionsChain)
  | authErr
  | otherErr
  deriving DecidableEq, Repr

/-- Classify one equity provider attempt exactly as the `try/catch` body does. -/
def classifyAttempt (ticker : String) (p : Provider) : AttemptClass :=
  match p.outcome with
  | .ok result =>
    if result.calls.length = 0 ∧ result.puts.length = 0 then
      let msg := "Provider " ++ p.name ++ " returned 0 options after filtering for " ++ ticker
      if isAuthErrorMessage msg then .authErr else .otherErr
    else .success result
  | .err msg => if isAuthErrorMessage msg then .authErr else .otherErr

/-- Result of the equity provider loop. -/
inductive LoopResult where
  | success (chain : OptionsChain)
  | authFail
  | exhausted
  deriving DecidableEq, Repr

/-- The equity provider loop: try providers in order; stop at the first usable
result, break at the first auth-class error, otherwise continue.  Also returns
the names of the providers actually invoked. -/
def tryProviders (ticker : String) : List Provider → LoopResult × List String
  | [] => (.exhausted, [])
  | p :: rest =>
    match classifyAttempt ticker p with
    | .success chain => (.success chain, [p.name])
    | .authErr => (.authFail, [p.name])
    | .otherErr =>
      let r := tryProviders ticker rest
      (r.1, p.name :: r.2)

/-- The order in which the equity loop visits providers:
`providers[(currentProviderIndex + i) % providers.length]` for `i = 0, …`. -/
def rotationOrder (ps : List Provider) (idx : ℕ) : List Provider :=
  (List.range ps.length).map fun i => ps.getD ((idx + i) % ps.length) ⟨"", .err ""⟩

/-- Accumulator of the crypto fan-out loop: collected successes, the most
recent nonzero spot price, and the first nonempty company name. -/
structure CryptoAcc where
  results : List OptionsChain
  spotPrice : ℚ
  companyName : String
  deriving DecidableEq, Repr

/-- The crypto fan-out: query all crypto providers, collect successes, ignore
failures. -/
def collectCrypto (cryptoProviders : List Provider) : CryptoAcc :=
  cryptoProviders.foldl (fun acc p =>
    match p.outcome with
    | .ok result =>
      { results := acc.results ++ [result],
        spotPrice := if 0 < result.spotPrice then result.spotPrice else acc.spotPrice,
        companyName :=
          if acc.companyName = "" ∧ (result.companyName.getD "") ≠ "" then
            result.companyName.getD ""
          else acc.companyName }
    | .err _ => acc) ⟨[], 0, ""⟩

/-- One step of the crypto merge: contracts sharing the `${strike}-${expiration}`
map key (i.e. the same strike and expiration) have their open interest summed;
a fresh key appends. -/
def addContract (acc : List (OptionData ℚ)) (c : OptionData ℚ) : List (OptionData ℚ) :=
  match acc with
  | [] => [c]
  | x :: xs =>
    if x.strike = c.strike ∧ x.expiration = c.expiration then
      { x with openInterest := x.openInterest + c.openInterest } :: xs
    else x :: addContract xs c

/-- The crypto merge of all collected contract lists. -/
def mergeContracts (contracts : List (OptionData ℚ)) : List (OptionData ℚ) :=
  contracts.foldl addContract []

/-- Result of `ProviderManager.fetchOptionsChain`: the chain handed to the
caller, the manager state afterwards, and the names of the providers whose
fetch was invoked during the request. -/
structure ManagerFetchResult where
  chain : OptionsChain
  manager : ManagerState
  invoked : List String
  deriving DecidableEq, Repr

/-- `ProviderManager.fetchOptionsChain` from `data-providers.ts` (the `useLive`
parameter of the source is unused there and omitted here; `genMock` stands for
`generateMockData`). -/
def fetchOptionsChain (genMock : String → OptionsChain) (mgr : ManagerState)
    (ticker : String) : ManagerFetchResult :=
  let normalizedTicker := ticker.toUpper.trim
  if isCryptoTicker normalizedTicker then
    let acc := collectCrypto mgr.cryptoProviders
    let invoked := mgr.cryptoProviders.map (·.name)
    if 0 < acc.results.length then
      let chain : OptionsChain :=
        { ticker := normalizedTicker,
          companyName := some (if acc.companyName ≠ "" then acc.companyName else normalizedTicker),
          spotPrice := if acc.spotPrice ≠ 0 then acc.spotPrice
            else (acc.results.headD default).spotPrice,
          change24h := none, change24hPercent := none, impliedVolatility := none,
          calls := mergeContracts ((acc.results.map (·.calls)).flatten),
          puts := mergeContracts ((acc.results.map (·.puts)).flatten) }
      ⟨chain, { mgr with authFailureDetected := false }, invoked⟩
    else ⟨genMock normalizedTicker, mgr, invoked⟩
  else if mgr.authFailureDetected then ⟨genMock normalizedTicker, mgr, []⟩
  else if mgr.providers.length = 0 then ⟨genMock normalizedTicker, mgr, []⟩
  else
    let res := tryProviders ticker (rotationOrder mgr.providers mgr.currentProviderIndex)
    match res.1 with
    | .success chain =>
      ⟨chain,
        { mgr with
            authFailureDetected := false
            hasWarnedAboutAuthFailure := false
            currentProviderIndex := (mgr.currentProviderIndex + 1) % mgr.providers.length },
        res.2⟩
    | .authFail =>
      ⟨genMock normalizedTicker,
        { mgr with authFailureDetected := true, hasWarnedAboutAuthFailure := true }, res.2⟩
    | .exhausted => ⟨genMock normalizedTicker, mgr, res.2⟩

/-! ## Cache layer (`getCachedOptionsChain` and `shouldRefresh`). -/

/-- `CachedData`: one cache entry. -/
structure CachedData where
  data : OptionsChain
  timestamp : ℤ
  ticker : String
  deriving DecidableEq, Repr, Inhabited

/-- The cache module's mutable state: the chain cache and the per-ticker
synthetic-data flags. -/
structure CacheState where
  cache : List (String × CachedData)
  usingMockData : List (String × Bool)
  deriving DecidableEq, Repr

/-- `UPDATE_TIMES`: the thrice-daily refresh schedule, in hours. -/
def UPDATE_TIMES : List ℚ := [9.5, 12, 16]

/-- `shouldRefresh`: stale after 8 hours, or within 30 minutes of the next
scheduled update.  `nowMs` is `Date.now()` and `currentHour` is
`getHours() + getMinutes() / 60`. -/
def shouldRefresh (cs : CacheState) (ticker : String) (nowMs : ℤ) (currentHour : ℚ) : Bool :=
  match lookupA cs.cache ticker with
  | none => true
  | some cached =>
    let hoursSinceUpdate : ℚ := ((nowMs - cached.timestamp : ℤ) : ℚ) / (1000 * 60 * 60)
    let nextUpdate := (UPDATE_TIMES.find? fun time => decide (currentHour < time)).getD (9.5 : ℚ)
    let hoursUntilNext := if currentHour < nextUpdate then nextUpdate - currentHour
      else (24 - currentHour) + nextUpdate
    decide (8 < hoursSinceUpdate) || decide (hoursUntilNext < 0.5)

/-- Observable events of one `getCachedOptionsChain` call, in program order. -/
inductive CacheEvent where
  | checkStaleness
  | cascadeFetch
  | deleteEntry
  | deleteMockFlag
  | insertEntry
  deriving DecidableEq, Repr

/-- Result of `getCachedOptionsChain`: the chain, the manager and cache states
afterwards, the providers invoked, and the event trace. -/
structure CacheFetchResult where
  data : OptionsChain
  manager : ManagerState
  cacheState : CacheState
  invoked : List String
  events : List CacheEvent
  deriving DecidableEq, Repr

/-- `getCachedOptionsChain` from the cache module.  The provider manager never
throws in this model, so the `catch` branch (which would mark the mock flag) is
dead; the staleness check runs only when a cached entry exists (JavaScript
`&&` short-circuit). -/
def getCachedOptionsChain (genMock : String → OptionsChain) (mgr : ManagerState)
    (cs : CacheState) (ticker : String) (forceRefresh : Bool) (nowMs : ℤ)
    (currentHour : ℚ) : CacheFetchResult :=
  let normalizedTicker := ticker.toUpper.trim
  if !forceRefresh && (lookupA cs.usingMockData normalizedTicker).getD false &&
      (lookupA cs.cache normalizedTicker).isSome then
    ⟨((lookupA cs.cache normalizedTicker).getD default).data, mgr, cs, [], []⟩
  else if !forceRefresh && (lookupA cs.cache normalizedTicker).isSome &&
      !shouldRefresh cs normalizedTicker nowMs currentHour then
    ⟨((lookupA cs.cache normalizedTicker).getD default).data, mgr, cs, [],
      [.checkStaleness]⟩
  else
    let fetched := fetchOptionsChain genMock mgr normalizedTicker
    let cs2 := if forceRefresh then
        { cache := delA cs.cache normalizedTicker,
          usingMockData := delA cs.usingMockData normalizedTicker }
      else cs
    let cs3 := { cs2 with
      cache := setA cs2.cache normalizedTicker ⟨fetched.chain, nowMs, normalizedTicker⟩ }
    ⟨fetched.chain, fetched.manager, cs3, fetched.invoked,
      (if !forceRefresh && (lookupA cs.cache normalizedTicker).isSome then
        [CacheEvent.checkStaleness] else []) ++
      [CacheEvent.cascadeFetch] ++
      (if forceRefresh then [CacheEvent.deleteEntry, CacheEvent.deleteMockFlag] else []) ++
      [CacheEvent.insertEntry]⟩

/-! ## Concrete instances used by the counterexamples and witnesses. -/

/-- The claim-side buy-pressure total at a strike: the sum of the positive
per-contract `hedgingShares` values stored at that strike. -/
def buyContrib (l : List (DeltaData ℚ)) (s : ℚ) : ℚ :=
  ((l.filter fun d => d.strike == s && decide (0 < d.hedgingShares)).map
    fun d => d.hedgingShares).sum

/-- The claim-side sell-pressure total at a strike: the sum of the absolute
values of the negative per-contract `hedgingShares` values at that strike. -/
def sellContrib (l : List (DeltaData ℚ)) (s : ℚ) : ℚ :=
  ((l.filter fun d => d.strike == s && decide (d.hedgingShares < 0)).map
    fun d => |d.hedgingShares|).sum

/-- The offsetting pair of the claim: one contract with `hedgingShares = 50`
and one with `−50` at the same strike. -/
def pressureExample : List (DeltaData ℚ) :=
  [{ strike := 100, delta := 0, gamma := 0, totalDelta := 0, totalGamma := 0,
     openInterest := 10, volume := 0, type := .call, hedgingShares := 50, gammaExposure := 0 },
   { strike := 100, delta := 0, gamma := 0, totalDelta := 0, totalGamma := 0,
     openInterest := 10, volume := 0, type := .put, hedgingShares := -50, gammaExposure := 0 }]

/-- The specification's gamma-flip test vector: per-strike net GEX
`[+10, +5, −3, −8]` over strikes `[90, 95, 100, 105]`. -/
def flipExample : List (DeltaData ℚ) :=
  [{ strike := 90, delta := 0, gamma := 0, totalDelta := 0, totalGamma := 0,
     openInterest := 1, volume := 0, type := .call, hedgingShares := 0, gammaExposure := 10 },
   { strike := 95, delta := 0, gamma := 0, totalDelta := 0, totalGamma := 0,
     openInterest := 1, volume := 0, type := .call, hedgingShares := 0, gammaExposure := 5 },
   { strike := 100, delta := 0, gamma := 0, totalDelta := 0, totalGamma := 0,
     openInterest := 1, volume := 0, type := .put, hedgingShares := 0, gammaExposure := -3 },
   { strike := 105, delta := 0, gamma := 0, totalDelta := 0, totalGamma := 0,
     openInterest := 1, volume := 0, type := .put, hedgingShares := 0, gammaExposure := -8 }]

/-- The counterexample chain for C2: one call with open interest 2, one put
with open interest 1. -/
def ratioCex : List (OptionData ℝ) :=
  [{ strike := 100, openInterest := 2, volume := none, impliedVolatility := none,
     type := .call, expiration := 30 },
   { strike := 100, openInterest := 1, volume := none, impliedVolatility := none,
     type := .put, expiration := 30 }]

/-- The counterexample chain for C1: a call with negative open interest −1000
at strike 10 and a put with open interest 0 at strike 20, both at the target
expiration. -/
def maxPainCex : List (OptionData ℚ) :=
  [{ strike := 10, openInterest := -1000, volume := none, impliedVolatility := none,
     type := .call, expiration := 30 },
   { strike := 20, openInterest := 0, volume := none, impliedVolatility := none,
     type := .put, expiration := 30 }]

/-- A small well-formed chain for the C1 witness: call open interest 5 at
strike 10, put open interest 3 at strike 20, both expiring in 30 days. -/
def maxPainWitnessOpts : List (OptionData ℚ) :=
  [{ strike := 10, openInterest := 5, volume := none, impliedVolatility := none,
     type := .call, expiration := 30 },
   { strike := 20, openInterest := 3, volume := none, impliedVolatility := none,
     type := .put, expiration := 30 }]

/-- One well-formed contract row for the cascade witnesses. -/
def contractEx : OptionData ℚ :=
  { strike := 100, openInterest := 1, volume := none, impliedVolatility := none,
    type := .call, expiration := 30 }

/-- A provider answer with one contract (classified as a usable success). -/
def chainEx : OptionsChain :=
  { ticker := "AAPL", companyName := none, spotPrice := 100, change24h := none,
    change24hPercent := none, impliedVolatility := none,
    calls := [contractEx], puts := [] }

/-- A fixed synthetic chain standing in for the randomized mock generator. -/
def mockEx : OptionsChain :=
  { ticker := "MOCK", companyName := none, spotPrice := 100, change24h := none,
    change24hPercent := none, impliedVolatility := none, calls := [], puts := [] }

/-- A constant mock generator for the witnesses. -/
def gmEx : String → OptionsChain := fun _ => mockEx

/-- An equity provider whose fetch raises an auth-class error. -/
def provA : Provider := { name := "providerA", outcome := .err "401 unauthorized" }

/-- An equity provider whose fetch succeeds. -/
def provB : Provider := { name := "providerB", outcome := .ok chainEx }

/-- Manager state with two equity providers and a clear auth flag. -/
def mgrEx : ManagerState :=
  { providers := [provA, provB], cryptoProviders := [], currentProviderIndex := 0,
    hasWarnedAboutAuthFailure := false, authFailureDetected := false }

/-- Manager state with the sticky auth flag already set. -/
def mgrExF : ManagerState :=
  { providers := [provA, provB], cryptoProviders := [], currentProviderIndex := 0,
    hasWarnedAboutAuthFailure := true, authFailureDetected := true }

/-- Crypto manager state with the auth flag set and one succeeding crypto
provider. -/
def mgrCr : ManagerState :=
  { providers := [], cryptoProviders := [{ name := "deribit", outcome := .ok chainEx }],
    currentProviderIndex := 0, hasWarnedAboutAuthFailure := true, authFailureDetected := true }

/-- The empty cache state. -/
def csEmpty : CacheState := { cache := [], usingMockData := [] }

/-! Auxiliary facts about `normCDF`. -/

theorem normCDF_pos_eq {x : ℝ} (hx : 0 < x) :
    normCDF x = 0.5 * (1.0 + yApprox (x / Real.sqrt 2.0)) := by
  rw [normCDF]
  rw [if_neg (not_lt.mpr hx.le), abs_of_pos hx]
  ring

theorem normCDF_neg_eq {x : ℝ} (hx : x < 0) :
    normCDF x = 0.5 * (1.0 + -1 * yApprox (-x / Real.sqrt 2.0)) := by
  rw [normCDF]
  rw [if_pos hx, abs_of_neg hx]

/-- For nonzero arguments, `normCDF x + normCDF (-x) = 1` exactly: the two
branches share the value `y` computed from `|x|` and add it with opposite
signs. -/
theorem normCDF_add_neg {x : ℝ} (hx : x ≠ 0) : normCDF x + normCDF (-x) = 1 := by
  rcases hx.lt_or_lt with h | h
  · rw [normCDF_neg_eq h, normCDF_pos_eq (show (0:ℝ) < -x by linarith)]
    ring
  · rw [normCDF_pos_eq h, normCDF_neg_eq (show -x < (0:ℝ) by linarith)]
    rw [neg_neg]
    ring

/-- At `x = 0` the approximation is off by exactly `1e-9`:
`normCDF 0 + normCDF 0 = 1 + 1e-9` (the constants sum to `0.999999999`). -/
theorem normCDF_zero_twice : normCDF 0 + normCDF 0 = 1 + 1e-9 := by
  have hy : yApprox 0 = 1e-9 := by
    rw [yApprox]
    norm_num [acdf1, acdf2, acdf3, acdf4, acdf5, pcdf, Real.exp_zero]
  rw [normCDF]
  simp only [abs_zero, zero_div, lt_irrefl, if_false]
  rw [hy]
  norm_num

/-! ## Claims C4 and C5: put-call delta parity; boundary policy. -/

/-- C4: for all `S, K, σ, r, T > 0`, call delta minus put delta at the same
parameters equals 1 within an absolute error of `1e-6` (it is exactly 1 unless
`d1 = 0`, where the approximation leaves a residue of exactly `1e-9`). -/
theorem calculateDelta_put_call_parity (S K T σ r : ℝ)
    (hS : 0 < S) (hK : 0 < K) (hσ : 0 < σ) (hr : 0 < r) (hT : 0 < T) :
    |calculateDelta S K T σ r .call - calculateDelta S K T σ r .put - 1| ≤ 1e-6 := by
  rw [calculateDelta, calculateDelta, if_neg (not_le.mpr hT), if_neg (not_le.mpr hT)]
  show |normCDF (bsD1 S K T σ r) - -normCDF (-(bsD1 S K T σ r)) - 1| ≤ 1e-6
  by_cases hd : bsD1 S K T σ r = 0
  · rw [hd, neg_zero]
    have h2 := normCDF_zero_twice
    have h3 : normCDF 0 - -normCDF 0 - 1 = 1e-9 := by linarith
    rw [h3, abs_of_nonneg (by norm_num)]
    norm_num
  · have h1 := normCDF_add_neg hd
    have h3 : normCDF (bsD1 S K T σ r) - -normCDF (-(bsD1 S K T σ r)) - 1 = 0 := by
      linarith
    rw [h3]
    norm_num

/-- Witness for C4 at the concrete input `S = K = T = σ = r = 1`. -/
theorem calculateDelta_put_call_parity_witness :
    (0:ℝ) < 1 ∧ |calculateDelta 1 1 1 1 1 .call - calculateDelta 1 1 1 1 1 .put - 1| ≤ 1e-6 :=
  ⟨by norm_num,
    calculateDelta_put_call_parity 1 1 1 1 1 (by norm_num) (by norm_num) (by norm_num)
      (by norm_num) (by norm_num)⟩

/-- C5: `calculateGamma` returns 0 whenever `timeToExpiry ≤ 0`, `spotPrice ≤ 0`
or `volatility ≤ 0`; on the remaining inputs its divisor `S·σ·√T` is nonzero;
and for `timeToExpiry ≤ 0`, `calculateDelta` returns the discrete payoff
indicator (call: 1 if `S > K` else 0; put: −1 if `S < K` else 0).  Both
functions are total, so neither "raises" on these boundary inputs. -/
theorem boundary_policy (S K T σ r : ℝ) (ty : OptionType) :
    ((T ≤ 0 ∨ S ≤ 0 ∨ σ ≤ 0) → calculateGamma S K T σ r = 0) ∧
    (0 < T → 0 < S → 0 < σ → S * σ * Real.sqrt T ≠ 0) ∧
    (T ≤ 0 → calculateDelta S K T σ r ty =
      (match ty with
       | .call => if S > K then 1 else 0
       | .put => if S < K then -1 else 0)) := by
  refine ⟨fun h => ?_, fun hT hS hσ => ?_, fun h => ?_⟩
  · rw [calculateGamma, if_pos h]
  · have hs : (0:ℝ) < Real.sqrt T := Real.sqrt_pos.mpr hT
    positivity
  · cases ty <;> rw [calculateDelta, if_pos h]

/-- Witness for C5: gamma vanishes at `T = 0`; the divisor is nonzero at
`T = 1`; expired call delta is the indicator at `S = 2 > K = 1`. -/
theorem boundary_policy_witness :
    calculateGamma 2 1 0 1 1 = 0 ∧
    (2:ℝ) * 1 * Real.sqrt 1 ≠ 0 ∧
    calculateDelta 2 1 0 1 1 .call = 1 := by
  refine ⟨(boundary_policy 2 1 0 1 1 .call).1 (Or.inl le_rfl),
    (boundary_policy 2 1 1 1 1 .call).2.1 one_pos (by norm_num) one_pos, ?_⟩
  have h := (boundary_policy 2 1 0 1 1 .call).2.2 le_rfl
  rw [h]
  norm_num

/-! ## Association-list lemmas. -/

theorem lookupA_setA {κ β : Type} [DecidableEq κ] (m : List (κ × β)) (k k' : κ) (v : β) :
    lookupA (setA m k v) k' = if k = k' then some v else lookupA m k' := by
  induction m with
  | nil => simp [setA, lookupA]
  | cons e m ih =>
    by_cases he : e.1 = k
    · by_cases hk : k = k'
      · simp [setA, lookupA, he, hk]
      · have hek' : e.1 ≠ k' := fun h => hk (he.symm.trans h)
        simp [setA, lookupA, he, hk, hek']
    · by_cases he' : e.1 = k'
      · have hk : k ≠ k' := fun h => he (he'.trans h.symm)
        have hk2 : k' ≠ k := fun h => hk h.symm
        simp [setA, lookupA, he, he', hk, hk2]
      · simp [setA, lookupA, he, he', ih]

theorem lookupA_setA_self {κ β : Type} [DecidableEq κ] (m : List (κ × β)) (k : κ) (v : β) :
    lookupA (setA m k v) k = some v := by
  rw [lookupA_setA, if_pos rfl]

theorem lookupA_eq_none_of_not_mem {κ β : Type} [DecidableEq κ] (m : List (κ × β)) (k : κ)
    (h : k ∉ m.map Prod.fst) : lookupA m k = none := by
  induction m with
  | nil => rfl
  | cons e m ih =>
    simp only [List.map_cons, List.mem_cons] at h
    push_neg at h
    rw [lookupA, if_neg (fun he => h.1 he.symm), ih h.2]

theorem lookupA_delA_self {κ β : Type} [DecidableEq κ] (m : List (κ × β)) (k : κ)
    (h : (m.map Prod.fst).Nodup) : lookupA (delA m k) k = none := by
  induction m with
  | nil => rfl
  | cons e m ih =>
    simp only [List.map_cons, List.nodup_cons] at h
    rw [delA]
    by_cases he : e.1 = k
    · rw [if_pos he]
      exact lookupA_eq_none_of_not_mem m k (he ▸ h.1)
    · rw [if_neg he, lookupA, if_neg he, ih h.2]

theorem keys_setA {κ β : Type} [DecidableEq κ] (m : List (κ × β)) (k : κ) (v : β) :
    (setA m k v).map Prod.fst =
      if k ∈ m.map Prod.fst then m.map Prod.fst else m.map Prod.fst ++ [k] := by
  induction m with
  | nil => simp [setA]
  | cons e m ih =>
    by_cases he : e.1 = k
    · rw [setA, if_pos he]
      simp [he]
    · rw [setA, if_neg he]
      simp only [List.map_cons, List.mem_cons]
      rw [ih]
      by_cases hk : k ∈ m.map Prod.fst
      · rw [if_pos hk, if_pos (Or.inr hk)]
      · rw [if_neg hk, if_neg (by rintro (h | h); exact he h.symm; exact hk h)]
        simp

theorem nodup_keys_setA {κ β : Type} [DecidableEq κ] (m : List (κ × β)) (k : κ) (v : β)
    (h : (m.map Prod.fst).Nodup) : ((setA m k v).map Prod.fst).Nodup := by
  rw [keys_setA]
  by_cases hk : k ∈ m.map Prod.fst
  · rwa [if_pos hk]
  · rw [if_neg hk, List.nodup_append]
    refine ⟨h, List.nodup_singleton k, ?_⟩
    intro a ha hmem
    rw [List.mem_singleton] at hmem
    exact hk (hmem ▸ ha)

theorem mem_keys_setA {κ β : Type} [DecidableEq κ] (m : List (κ × β)) (k k' : κ) (v : β) :
    k' ∈ (setA m k v).map Prod.fst ↔ k' ∈ m.map Prod.fst ∨ k' = k := by
  rw [keys_setA]
  by_cases hk : k ∈ m.map Prod.fst
  · rw [if_pos hk]
    constructor
    · exact Or.inl
    · rintro (h | h)
      · exact h
      · exact h ▸ hk
  · rw [if_neg hk]
    simp

theorem lookupA_of_mem {κ β : Type} [DecidableEq κ] (m : List (κ × β)) (e : κ × β)
    (hnd : (m.map Prod.fst).Nodup) (he : e ∈ m) : lookupA m e.1 = some e.2 := by
  induction m with
  | nil => cases he
  | cons f m ih =>
    simp only [List.map_cons, List.nodup_cons] at hnd
    rcases List.mem_cons.mp he with h | h
    · subst h
      rw [lookupA, if_pos rfl]
    · rw [lookupA]
      by_cases hf : f.1 = e.1
      · exact absurd (hf ▸ List.mem_map_of_mem Prod.fst h) hnd.1
      · rw [if_neg hf]
        exact ih hnd.2 h

/-! ## Claim C7: per-strike buy and sell pressure. -/

theorem agg_fold_pressure (l : List (DeltaData ℚ)) :
    ∀ (m : List (ℚ × StrikeAgg)) (s : ℚ),
      (((lookupA (l.foldl aggStep m) s).getD ⟨0, 0, 0, 0⟩).buyPressure =
        ((lookupA m s).getD ⟨0, 0, 0, 0⟩).buyPressure + buyContrib l s) ∧
      (((lookupA (l.foldl aggStep m) s).getD ⟨0, 0, 0, 0⟩).sellPressure =
        ((lookupA m s).getD ⟨0, 0, 0, 0⟩).sellPressure + sellContrib l s) := by
  induction l with
  | nil => intro m s; simp [buyContrib, sellContrib]
  | cons d l ih =>
    intro m s
    rw [List.foldl_cons]
    have hstep : ∀ k, lookupA (aggStep m d) k =
        if d.strike = k then
          some { delta := ((lookupA m d.strike).getD ⟨0, 0, 0, 0⟩).delta + d.hedgingShares,
                 gamma := ((lookupA m d.strike).getD ⟨0, 0, 0, 0⟩).gamma + d.gammaExposure,
                 buyPressure := ((lookupA m d.strike).getD ⟨0, 0, 0, 0⟩).buyPressure +
                   (if 0 < d.hedgingShares then d.hedgingShares else 0),
                 sellPressure := ((lookupA m d.strike).getD ⟨0, 0, 0, 0⟩).sellPressure +
                   (if d.hedgingShares < 0 then |d.hedgingShares| else 0) }
        else lookupA m k := by
      intro k
      rw [aggStep, lookupA_setA]
    rcases ih (aggStep m d) s with ⟨ihb, ihs⟩
    rw [ihb, ihs, hstep s]
    by_cases hds : d.strike = s
    · subst hds
      refine ⟨?_, ?_⟩
      · by_cases hpos : 0 < d.hedgingShares <;>
          simp [buyContrib, List.filter_cons, hpos] <;> ring
      · by_cases hneg : d.hedgingShares < 0 <;>
          simp [sellContrib, List.filter_cons, hneg] <;> ring
    · have hne : (d.strike == s) = false := beq_eq_false_iff_ne.mpr hds
      refine ⟨?_, ?_⟩ <;>
        simp [buyContrib, sellContrib, List.filter_cons, hds, hne]

/-- C7: in `aggregateDeltaByStrike`, each strike's `buyPressure` is the sum of
the positive per-contract `hedgingShares` at that strike, and `sellPressure`
is the sum of the absolute values of the negative ones — accumulated from the
signed per-contract values, not derived from the net. -/
theorem aggregateDeltaByStrike_pressures (l : List (DeltaData ℚ)) (s : ℚ) (agg : StrikeAgg)
    (h : lookupA (aggregateDeltaByStrike l) s = some agg) :
    agg.buyPressure = buyContrib l s ∧ agg.sellPressure = sellContrib l s := by
  have hb := (agg_fold_pressure l [] s).1
  have hs := (agg_fold_pressure l [] s).2
  rw [aggregateDeltaByStrike] at h
  rw [h] at hb hs
  simp only [lookupA, Option.getD_none, Option.getD_some] at hb hs
  constructor
  · rw [hb]; show StrikeAgg.buyPressure ⟨0, 0, 0, 0⟩ + buyContrib l s = buyContrib l s; ring
  · rw [hs]; show StrikeAgg.sellPressure ⟨0, 0, 0, 0⟩ + sellContrib l s = sellContrib l s; ring

/-- Witness for C7: the offsetting-pair strike reports pressure `50` on both
sides, not a washed-out zero. -/
theorem aggregateDeltaByStrike_pressures_witness :
    lookupA (aggregateDeltaByStrike pressureExample) 100 =
      some { delta := 0, gamma := 0, buyPressure := 50, sellPressure := 50 } ∧
    (50 : ℚ) = buyContrib pressureExample 100 ∧
    (50 : ℚ) = sellContrib pressureExample 100 := by
  have h : lookupA (aggregateDeltaByStrike pressureExample) 100 =
      some { delta := 0, gamma := 0, buyPressure := 50, sellPressure := 50 } := by
    with_unfolding_all rfl
  have h2 := aggregateDeltaByStrike_pressures pressureExample 100
    { delta := 0, gamma := 0, buyPressure := 50, sellPressure := 50 } h
  exact ⟨h, h2.1, h2.2⟩

/-! ## Claim C6: gamma flip. -/

theorem findGammaFlip_first :
    ∀ (e : List (ℚ × ℚ)) (l1 : List ((ℚ × ℚ) × (ℚ × ℚ))) (a b : ℚ × ℚ)
      (l2 : List ((ℚ × ℚ) × (ℚ × ℚ))),
      adjPairs e = l1 ++ (a, b) :: l2 → (∀ pq ∈ l1, ¬OppSign pq.1.2 pq.2.2) →
      OppSign a.2 b.2 →
      findGammaFlip e = some (a.1 + |a.2| / (|a.2| + |b.2|) * (b.1 - a.1))
  | [], l1, a, b, l2, h, _, _ => by cases l1 <;> simp [adjPairs] at h
  | [x], l1, a, b, l2, h, _, _ => by cases l1 <;> simp [adjPairs] at h
  | x :: y :: rest, l1, a, b, l2, h, hl1, hab => by
    have hadj : adjPairs (x :: y :: rest) = (x, y) :: adjPairs (y :: rest) := rfl
    rw [hadj] at h
    match l1, h with
    | [], h =>
      have hxy : (x, y) = (a, b) := by
        have := List.head_eq_of_cons_eq h
        simpa using this
      obtain ⟨hx, hy⟩ := Prod.mk.injEq .. ▸ hxy
      subst hx; subst hy
      rw [findGammaFlip, if_pos hab]
    | p :: l1, h =>
      have hpx : p = (x, y) := (List.head_eq_of_cons_eq h).symm
      have htl : adjPairs (y :: rest) = l1 ++ (a, b) :: l2 := List.tail_eq_of_cons_eq h
      have hnot : ¬OppSign x.2 y.2 := by
        have := hl1 p (List.mem_cons_self p l1)
        rwa [hpx] at this
      rw [findGammaFlip, if_neg hnot]
      exact findGammaFlip_first (y :: rest) l1 a b l2 htl
        (fun pq hpq => hl1 pq (List.mem_cons_of_mem p hpq)) hab

theorem findGammaFlip_none :
    ∀ e : List (ℚ × ℚ), (∀ pq ∈ adjPairs e, ¬OppSign pq.1.2 pq.2.2) →
      findGammaFlip e = none
  | [], _ => rfl
  | [_], _ => rfl
  | x :: y :: rest, h => by
    have hnot : ¬OppSign x.2 y.2 := h (x, y) (List.mem_cons_self _ _)
    rw [findGammaFlip, if_neg hnot]
    exact findGammaFlip_none (y :: rest)
      (fun pq hpq => h pq (List.mem_cons_of_mem (x, y) hpq))

/-- C6: `calculateGammaFlip` scans the per-strike aggregated gamma exposures in
ascending strike order; at the first adjacent pair with strictly opposite
signs it returns `strike_i + |gex_i| / (|gex_i| + |gex_{i+1}|) ·
(strike_{i+1} − strike_i)`, and it returns `none` (no result, not an error)
when no sign change exists — in particular when fewer than 2 strikes are
present. -/
theorem calculateGammaFlip_spec (l : List (DeltaData ℚ)) :
    List.Sorted ltePair (gexEntries l) ∧
    (∀ l1 a b l2, adjPairs (gexEntries l) = l1 ++ (a, b) :: l2 →
      (∀ pq ∈ l1, ¬OppSign pq.1.2 pq.2.2) → OppSign a.2 b.2 →
      calculateGammaFlip l = some (a.1 + |a.2| / (|a.2| + |b.2|) * (b.1 - a.1))) ∧
    ((∀ pq ∈ adjPairs (gexEntries l), ¬OppSign pq.1.2 pq.2.2) →
      calculateGammaFlip l = none) := by
  refine ⟨List.sorted_insertionSort ltePair _, ?_, ?_⟩
  · intro l1 a b l2 h hl1 hab
    have hne : ¬l.length = 0 := by
      intro h0
      rw [List.length_eq_zero] at h0
      subst h0
      rw [show gexEntries [] = [] from rfl] at h
      cases l1 <;> simp [adjPairs] at h
    rw [calculateGammaFlip, if_neg hne]
    exact findGammaFlip_first _ l1 a b l2 h hl1 hab
  · intro hall
    rw [calculateGammaFlip]
    by_cases h0 : l.length = 0
    · rw [if_pos h0]
    · rw [if_neg h0]
      exact findGammaFlip_none _ hall

/-- Witness for C6: on the specification's test vector the flip is interpolated
between strikes 95 and 100 from the first sign change. -/
theorem calculateGammaFlip_spec_witness :
    calculateGammaFlip flipExample =
      some ((95 : ℚ) + |(5 : ℚ)| / (|(5 : ℚ)| + |(-3 : ℚ)|) * (100 - 95)) := by
  refine (calculateGammaFlip_spec flipExample).2.1
    [((90, 10), (95, 5))] (95, 5) (100, -3) [((100, -3), (105, -8))] ?_ ?_ ?_
  · with_unfolding_all rfl
  · intro pq hpq
    rw [List.mem_singleton] at hpq
    subst hpq
    norm_num [OppSign]
  · norm_num [OppSign]

/-! ## Claim C2: the ratio adjusting the call-side hedge multiplier. -/

theorem foldl_add_eq_sum {β : Type} (f : β → ℝ) (l : List β) (init : ℝ) :
    l.foldl (fun sum x => sum + f x) init = init + (l.map f).sum := by
  induction l generalizing init with
  | nil => simp
  | cons x l ih =>
    rw [List.foldl_cons, ih, List.map_cons, List.sum_cons]
    ring

/-- Counterexample for C2: the source computes `totalCallQty / totalPutQty`
guarded on `totalPutQty > 0` (here `2`), not the claimed
`totalPutQty / totalCallQty` guarded on `totalCallQty > 0` (here `1/2`). -/
theorem putCallRatio_counterexample :
    putCallRatioOf ratioCex false = 2 ∧ claimPutCallRatio ratioCex false = 1 / 2 ∧
    (2 : ℝ) ≠ 1 / 2 := by
  have h1 : (OptionType.call = OptionType.put) = False := eq_false (by decide)
  have h2 : (OptionType.put = OptionType.call) = False := eq_false (by decide)
  refine ⟨?_, ?_, by norm_num⟩
  · rw [putCallRatioOf, totalQty, totalQty]
    norm_num [ratioCex, List.filter_cons, h1, h2]
  · rw [claimPutCallRatio]
    norm_num [ratioCex, List.filter_cons, h1, h2]

/-- C2 (amended): the ratio `calculateDeltaManagement` uses to adjust the
call-side hedge multiplier equals total call quantity divided by total put
quantity when the total put quantity is positive, and 1 otherwise (quantity =
open interest, or volume under volume-weighting). -/
theorem putCallRatio_amended (options : List (OptionData ℝ)) (useVolume : Bool) :
    putCallRatioOf options useVolume =
      if 0 < ((options.filter fun o => o.type == OptionType.put).map
          fun o => if useVolume then o.volume.getD 0 else o.openInterest).sum then
        ((options.filter fun o => o.type == OptionType.call).map
          fun o => if useVolume then o.volume.getD 0 else o.openInterest).sum /
        ((options.filter fun o => o.type == OptionType.put).map
          fun o => if useVolume then o.volume.getD 0 else o.openInterest).sum
      else 1 := by
  rw [putCallRatioOf, totalQty, totalQty, foldl_add_eq_sum, foldl_add_eq_sum]
  norm_num

/-! ## Claim C3: the standardized-expiration filter. -/

/-- Counterexample for C3: Friday 2027-01-29 (`day = 29`, `month = 0` =
January, `dayOfWeek = 5`) is accepted by the source's `isMonthlyFriday`
disjunct but rejected by the claimed rule. -/
theorem expiration_counterexample :
    isMonthlyOrQuarterlyExpiration ⟨29, 0, 5⟩ = true ∧
    ¬claimExpirationRule ⟨29, 0, 5⟩ := by
  constructor
  · decide
  · decide

/-- C3 (amended): the filter accepts a date iff it is a Friday with day in
`[15,21]`, or a Friday with day in `[22,31]` of a non-quarter-end month, or a
Friday with day in `[25,31]` of a quarter-end month. -/
theorem isMonthlyOrQuarterlyExpiration_amended (d : SimpleDate) :
    isMonthlyOrQuarterlyExpiration d = true ↔ amendedExpirationRule d := by
  have h := d
  simp only [isMonthlyOrQuarterlyExpiration, amendedExpirationRule, QuarterMonth,
    Bool.or_eq_true, Bool.and_eq_true, Bool.not_eq_true', Bool.or_eq_false_iff,
    beq_iff_eq, beq_eq_false_iff_ne, ne_eq, decide_eq_true_eq]
  omega

/-! ## Claim C1: max pain. -/

theorem byStrike_fold (eo : List (OptionData ℚ)) :
    ∀ (m : List (ℚ × StrikeOI)) (k : ℚ),
      (((lookupA (eo.foldl byStrikeStep m) k).getD ⟨0, 0⟩).calls =
        ((lookupA m k).getD ⟨0, 0⟩).calls + callOIAt eo k) ∧
      (((lookupA (eo.foldl byStrikeStep m) k).getD ⟨0, 0⟩).puts =
        ((lookupA m k).getD ⟨0, 0⟩).puts + putOIAt eo k) := by
  induction eo with
  | nil => intro m k; simp [callOIAt, putOIAt]
  | cons o eo ih =>
    intro m k
    rw [List.foldl_cons]
    rcases ih (byStrikeStep m o) k with ⟨ihc, ihp⟩
    rw [ihc, ihp]
    have hstep : ∀ k', lookupA (byStrikeStep m o) k' =
        if o.strike = k' then
          some (match o.type with
            | .call => ⟨((lookupA m o.strike).getD ⟨0, 0⟩).calls + o.openInterest,
                ((lookupA m o.strike).getD ⟨0, 0⟩).puts⟩
            | .put => ⟨((lookupA m o.strike).getD ⟨0, 0⟩).calls,
                ((lookupA m o.strike).getD ⟨0, 0⟩).puts + o.openInterest⟩)
        else lookupA m k' := by
      intro k'
      rw [byStrikeStep, lookupA_setA]
    rw [hstep k]
    by_cases hks : o.strike = k
    · subst hks
      cases hty : o.type
      · constructor
        · simp [callOIAt, List.filter_cons, hty]
          ring
        · simp [putOIAt, List.filter_cons, hty]
      · constructor
        · simp [callOIAt, List.filter_cons, hty]
        · simp [putOIAt, List.filter_cons, hty]
          ring
    · have hne : (o.strike == k) = false := beq_eq_false_iff_ne.mpr hks
      constructor
      · simp [callOIAt, List.filter_cons, hks, hne]
      · simp [putOIAt, List.filter_cons, hks, hne]

theorem byStrike_keys_nodup (eo : List (OptionData ℚ)) :
    ∀ m : List (ℚ × StrikeOI), (m.map Prod.fst).Nodup →
      ((eo.foldl byStrikeStep m).map Prod.fst).Nodup := by
  induction eo with
  | nil => intro m h; simpa using h
  | cons o eo ih =>
    intro m h
    rw [List.foldl_cons]
    exact ih _ (nodup_keys_setA _ _ _ h)

theorem byStrike_keys_mem (eo : List (OptionData ℚ)) :
    ∀ (m : List (ℚ × StrikeOI)) (k : ℚ),
      k ∈ (eo.foldl byStrikeStep m).map Prod.fst ↔
        k ∈ m.map Prod.fst ∨ k ∈ eo.map OptionData.strike := by
  induction eo with
  | nil => intro m k; simp
  | cons o eo ih =>
    intro m k
    rw [List.foldl_cons, ih]
    rw [show byStrikeStep m o = setA m o.strike _ from rfl, mem_keys_setA]
    simp only [List.map_cons, List.mem_cons]
    tauto

theorem callOIAt_nonneg (eo : List (OptionData ℚ)) (k : ℚ)
    (h : ∀ o ∈ eo, 0 ≤ o.openInterest) : 0 ≤ callOIAt eo k := by
  refine List.sum_nonneg ?_
  intro x hx
  rw [List.mem_map] at hx
  obtain ⟨o, ho, rfl⟩ := hx
  exact h o (List.mem_of_mem_filter ho)

theorem putOIAt_nonneg (eo : List (OptionData ℚ)) (k : ℚ)
    (h : ∀ o ∈ eo, 0 ≤ o.openInterest) : 0 ≤ putOIAt eo k := by
  refine List.sum_nonneg ?_
  intro x hx
  rw [List.mem_map] at hx
  obtain ⟨o, ho, rfl⟩ := hx
  exact h o (List.mem_of_mem_filter ho)

theorem sum_filter_eq_sum_ite (l : List ℚ) (q : ℚ → Bool) (f : ℚ → ℚ) :
    ((l.filter q).map f).sum = (l.map fun k => if q k then f k else 0).sum := by
  induction l with
  | nil => rfl
  | cons x l ih =>
    rw [List.filter_cons]
    cases hq : q x <;> simp [hq, ih]

theorem strikesOf_nodup (options : List (OptionData ℚ)) (expirationDays : ℚ) :
    (strikesOf options expirationDays).Nodup := by
  rw [strikesOf]
  exact (List.perm_insertionSort _ _).nodup_iff.mpr (List.nodup_dedup _)

theorem mem_strikesOf (options : List (OptionData ℚ)) (expirationDays k : ℚ) :
    k ∈ strikesOf options expirationDays ↔
      k ∈ (options.filter fun o => o.expiration == expirationDays).map OptionData.strike := by
  rw [strikesOf, (List.perm_insertionSort _ _).mem_iff, List.mem_dedup]

/-- The entries of `optionsByStrike` hold exactly the claim-side per-strike
call/put open interest. -/
theorem optionsByStrike_entries (eo : List (OptionData ℚ)) (e : ℚ × StrikeOI)
    (he : e ∈ optionsByStrike eo) :
    e.2.calls = callOIAt eo e.1 ∧ e.2.puts = putOIAt eo e.1 := by
  have hnd : ((optionsByStrike eo).map Prod.fst).Nodup :=
    byStrike_keys_nodup eo [] (by simp)
  have hlk : lookupA (optionsByStrike eo) e.1 = some e.2 := lookupA_of_mem _ e hnd he
  have h := byStrike_fold eo [] e.1
  unfold optionsByStrike at hlk
  rw [hlk] at h
  simpa [lookupA] using h

theorem painAt_eq_claimPain (options : List (OptionData ℚ)) (expirationDays p : ℚ)
    (hOI : ∀ o ∈ options, 0 ≤ o.openInterest) :
    painAt (optionsByStrike (options.filter fun o => o.expiration == expirationDays)) p =
      claimPain options expirationDays p := by
  set eo := options.filter fun o => o.expiration == expirationDays with heo
  have hOIeo : ∀ o ∈ eo, 0 ≤ o.openInterest := fun o ho =>
    hOI o (List.mem_of_mem_filter ho)
  have hks : ((optionsByStrike eo).map Prod.fst).Perm (strikesOf options expirationDays) := by
    refine (List.perm_ext_iff_of_nodup (byStrike_keys_nodup eo [] (by simp))
      (strikesOf_nodup options expirationDays)).mpr ?_
    intro k
    rw [mem_strikesOf, ← heo]
    have hmem := byStrike_keys_mem eo [] k
    rw [hmem]
    simp
  have hcall : (optionsByStrike eo).map
        (fun e => if e.1 < p ∧ 0 < e.2.calls then (p - e.1) * e.2.calls * 100 else 0) =
      (optionsByStrike eo).map
        (fun e => if e.1 < p then callOIAt eo e.1 * (p - e.1) * 100 else 0) := by
    refine List.map_congr_left ?_
    intro e he
    rcases optionsByStrike_entries eo e he with ⟨hc, _⟩
    rw [hc]
    by_cases hlt : e.1 < p
    · rcases lt_or_eq_of_le (callOIAt_nonneg eo e.1 hOIeo) with hpos | hzero
      · rw [if_pos ⟨hlt, hpos⟩, if_pos hlt]
        ring
      · rw [if_pos hlt, ← hzero]
        simp
    · rw [if_neg (fun h => hlt h.1), if_neg hlt]
  have hput : (optionsByStrike eo).map
        (fun e => if p < e.1 ∧ 0 < e.2.puts then (e.1 - p) * e.2.puts * 100 else 0) =
      (optionsByStrike eo).map
        (fun e => if p < e.1 then putOIAt eo e.1 * (e.1 - p) * 100 else 0) := by
    refine List.map_congr_left ?_
    intro e he
    rcases optionsByStrike_entries eo e he with ⟨_, hp2⟩
    rw [hp2]
    by_cases hlt : p < e.1
    · rcases lt_or_eq_of_le (putOIAt_nonneg eo e.1 hOIeo) with hpos | hzero
      · rw [if_pos ⟨hlt, hpos⟩, if_pos hlt]
        ring
      · rw [if_pos hlt, ← hzero]
        simp
    · rw [if_neg (fun h => hlt h.1), if_neg hlt]
  rw [painAt, hcall, hput, claimPain]
  rw [sum_filter_eq_sum_ite _ _ (fun k => callOIAt eo k * (p - k) * 100),
    sum_filter_eq_sum_ite _ _ (fun k => putOIAt eo k * (k - p) * 100)]
  have hmc : ((optionsByStrike eo).map
        (fun e => if e.1 < p then callOIAt eo e.1 * (p - e.1) * 100 else 0)) =
      ((optionsByStrike eo).map Prod.fst).map
        (fun k => if k < p then callOIAt eo k * (p - k) * 100 else 0) := by
    rw [List.map_map]
    rfl
  have hmp : ((optionsByStrike eo).map
        (fun e => if p < e.1 then putOIAt eo e.1 * (e.1 - p) * 100 else 0)) =
      ((optionsByStrike eo).map Prod.fst).map
        (fun k => if p < k then putOIAt eo k * (k - p) * 100 else 0) := by
    rw [List.map_map]
    rfl
  rw [hmc, hmp]
  rw [(hks.map (fun k => if k < p then callOIAt eo k * (p - k) * 100 else 0)).sum_eq,
    (hks.map (fun k => if p < k then putOIAt eo k * (k - p) * 100 else 0)).sum_eq]
  congr 1 <;> refine congrArg List.sum (List.map_congr_left ?_) <;> intro k _ <;>
    simp [decide_eq_true_eq]

theorem sorted_lt_of_le_nodup (l : List ℚ) (hs : List.Sorted (· ≤ ·) l) (hn : l.Nodup) :
    List.Sorted (· < ·) l := by
  induction l with
  | nil => exact List.sorted_nil
  | cons x l ih =>
    rw [List.sorted_cons] at hs ⊢
    rw [List.nodup_cons] at hn
    refine ⟨?_, ih hs.2 hn.2⟩
    intro b hb
    exact lt_of_le_of_ne (hs.1 b hb) (fun h => hn.1 (h ▸ hb))

theorem maxPainLoop_start (byStrike : List (ℚ × StrikeOI)) (s0 : ℚ) (rest : List ℚ) (x : ℚ) :
    maxPainLoop byStrike (s0 :: rest) (none, x) =
      maxPainLoop byStrike rest (some (painAt byStrike s0), s0) := rfl

/-- The argmin loop keeps the first pain-minimizing candidate; over a strictly
ascending candidate list, ties therefore resolve to the lowest strike. -/
theorem maxPainLoop_spec (byStrike : List (ℚ × StrikeOI)) :
    ∀ (rest : List ℚ) (a : ℚ), List.Sorted (· < ·) (a :: rest) →
      ∃ M A, maxPainLoop byStrike rest (some (painAt byStrike a), a) = (some M, A) ∧
        (A = a ∨ A ∈ rest) ∧ M = painAt byStrike A ∧ M ≤ painAt byStrike a ∧
        (∀ s ∈ rest, M ≤ painAt byStrike s) ∧ (A = a ∨ M < painAt byStrike a) ∧
        (∀ s, s = a ∨ s ∈ rest → painAt byStrike s = M → A ≤ s) := by
  intro rest
  induction rest with
  | nil =>
    intro a _
    refine ⟨painAt byStrike a, a, rfl, Or.inl rfl, rfl, le_refl _, ?_, Or.inl rfl, ?_⟩
    · intro s hs; cases hs
    · intro s hs _
      rcases hs with rfl | hs
      · exact le_refl s
      · cases hs
  | cons p rest ih =>
    intro a hsort
    have hsort' : List.Sorted (· < ·) (p :: rest) := (List.sorted_cons.mp hsort).2
    have hap : a < p := (List.sorted_cons.mp hsort).1 p (List.mem_cons_self _ _)
    have harest : ∀ b ∈ rest, a < b := fun b hb =>
      (List.sorted_cons.mp hsort).1 b (List.mem_cons_of_mem _ hb)
    have hstep : maxPainLoop byStrike (p :: rest) (some (painAt byStrike a), a) =
        if painAt byStrike p < painAt byStrike a then
          maxPainLoop byStrike rest (some (painAt byStrike p), p)
        else maxPainLoop byStrike rest (some (painAt byStrike a), a) := by
      rw [maxPainLoop]
      by_cases h : painAt byStrike p < painAt byStrike a
      · simp [h]
      · simp [h]
    by_cases hlt : painAt byStrike p < painAt byStrike a
    · rw [hstep, if_pos hlt]
      obtain ⟨M, A, hloop, hmem, hMA, hMle, hMall, hor, hties⟩ := ih p hsort'
      refine ⟨M, A, hloop, ?_, hMA, ?_, ?_, ?_, ?_⟩
      · rcases hmem with rfl | h
        · exact Or.inr (List.mem_cons_self _ _)
        · exact Or.inr (List.mem_cons_of_mem _ h)
      · exact le_of_lt (lt_of_le_of_lt hMle hlt)
      · intro s hs
        rcases List.mem_cons.mp hs with rfl | hs
        · exact hMle
        · exact hMall s hs
      · exact Or.inr (lt_of_le_of_lt hMle hlt)
      · intro s hs hp2
        rcases hs with rfl | hs
        · exfalso
          have hcon : M < painAt byStrike s := lt_of_le_of_lt hMle hlt
          rw [hp2] at hcon
          exact lt_irrefl _ hcon
        · refine hties s ?_ hp2
          rcases List.mem_cons.mp hs with rfl | h
          · exact Or.inl rfl
          · exact Or.inr h
    · rw [hstep, if_neg hlt]
      have hsort2 : List.Sorted (· < ·) (a :: rest) :=
        List.sorted_cons.mpr ⟨harest, (List.sorted_cons.mp hsort').2⟩
      obtain ⟨M, A, hloop, hmem, hMA, hMle, hMall, hor, hties⟩ := ih a hsort2
      refine ⟨M, A, hloop, ?_, hMA, hMle, ?_, hor, ?_⟩
      · rcases hmem with rfl | h
        · exact Or.inl rfl
        · exact Or.inr (List.mem_cons_of_mem _ h)
      · intro s hs
        rcases List.mem_cons.mp hs with rfl | hs
        · exact le_trans hMle (not_lt.mp hlt)
        · exact hMall s hs
      · intro s hs hp2
        rcases hs with rfl | hs
        · exact hties s (Or.inl rfl) hp2
        · rcases List.mem_cons.mp hs with rfl | hs2
          · rcases hor with rfl | hMlt
            · exact le_of_lt hap
            · exfalso
              have h1 : painAt byStrike a ≤ painAt byStrike s := not_lt.mp hlt
              rw [hp2] at h1
              exact absurd hMlt (not_lt.mpr h1)
          · exact hties s (Or.inr hs2) hp2

/-- C1 (amended): over contracts with nonnegative open interest,
`calculateMaxPain` returns the candidate strike minimizing the claimed pain
formula, ties resolving to the lowest candidate; with no contract at the
target expiration it returns `none`. -/
theorem calculateMaxPain_spec (options : List (OptionData ℚ)) (expirationDays : ℚ)
    (spotPrice : Option ℚ) (hOI : ∀ o ∈ options, 0 ≤ o.openInterest) :
    ((∀ o ∈ options, ¬o.expiration = expirationDays) →
      calculateMaxPain options expirationDays spotPrice = none) ∧
    ((∃ o ∈ options, o.expiration = expirationDays) →
      ∃ r, calculateMaxPain options expirationDays spotPrice = some r ∧
        r.maxPainStrike ∈ strikesOf options expirationDays ∧
        (∀ s ∈ strikesOf options expirationDays,
          claimPain options expirationDays r.maxPainStrike ≤
            claimPain options expirationDays s) ∧
        (∀ s ∈ strikesOf options expirationDays,
          claimPain options expirationDays s =
            claimPain options expirationDays r.maxPainStrike →
          r.maxPainStrike ≤ s)) := by
  constructor
  · intro hnone
    have he : options.filter (fun o => o.expiration == expirationDays) = [] := by
      rw [List.filter_eq_nil_iff]
      intro o ho
      simpa using hnone o ho
    simp only [calculateMaxPain, he]
    simp
  · rintro ⟨o, ho, hexp⟩
    have hmemeo : o ∈ options.filter (fun o => o.expiration == expirationDays) :=
      List.mem_filter.mpr ⟨ho, by simp [hexp]⟩
    have hlen : ¬(options.filter (fun o => o.expiration == expirationDays)).length = 0 := by
      rw [List.length_eq_zero]
      exact List.ne_nil_of_mem hmemeo
    have hksmem : o.strike ∈ strikesOf options expirationDays := by
      rw [mem_strikesOf]
      exact List.mem_map_of_mem _ hmemeo
    have hksne : strikesOf options expirationDays ≠ [] := List.ne_nil_of_mem hksmem
    obtain ⟨s0, rest, hsr⟩ := List.exists_cons_of_ne_nil hksne
    have hstrikelen : ¬(strikesOf options expirationDays).length = 0 := by
      rw [hsr]; simp
    have hsortlt : List.Sorted (· < ·) (s0 :: rest) := by
      rw [← hsr]
      refine sorted_lt_of_le_nodup _ ?_ (strikesOf_nodup options expirationDays)
      rw [strikesOf]
      exact List.sorted_insertionSort _ _
    obtain ⟨M, A, hloop, hmem, hMA, hMle, hMall, hor, hties⟩ :=
      maxPainLoop_spec
        (optionsByStrike (options.filter fun o => o.expiration == expirationDays))
        rest s0 hsortlt
    have hlooptotal :
        maxPainLoop (optionsByStrike (options.filter fun o => o.expiration == expirationDays))
          (strikesOf options expirationDays)
          (none, (strikesOf options expirationDays).headD 0) = (some M, A) := by
      rw [hsr, maxPainLoop_start]
      exact hloop
    have hpc : ∀ q, painAt
        (optionsByStrike (options.filter fun o => o.expiration == expirationDays)) q =
        claimPain options expirationDays q :=
      fun q => painAt_eq_claimPain options expirationDays q hOI
    have hcalc : ∃ r, calculateMaxPain options expirationDays spotPrice = some r ∧
        r.maxPainStrike = A := by
      simp only [calculateMaxPain]
      rw [if_neg hlen, if_neg hstrikelen, hlooptotal]
      exact ⟨_, rfl, rfl⟩
    obtain ⟨r, hr, hrA⟩ := hcalc
    refine ⟨r, hr, ?_, ?_, ?_⟩
    · rw [hrA, hsr]
      rcases hmem with rfl | h
      · exact List.mem_cons_self _ _
      · exact List.mem_cons_of_mem _ h
    · intro s hs
      rw [hrA, ← hpc A, ← hpc s, ← hMA]
      rw [hsr] at hs
      rcases List.mem_cons.mp hs with rfl | hs
      · exact hMle
      · exact hMall s hs
    · intro s hs heq
      rw [hrA]
      rw [hsr] at hs
      rw [hrA, ← hpc A, ← hpc s, ← hMA] at heq
      refine hties s ?_ heq
      rcases List.mem_cons.mp hs with rfl | h
      · exact Or.inl rfl
      · exact Or.inr h

/-- Counterexample for C1: on a chain with a negative open-interest row the
source's `oi.calls > 0` guard drops the claimed (negative) pain contribution —
the code returns strike 10 although candidate 20 has strictly smaller pain
under the claimed formula. -/
theorem calculateMaxPain_counterexample :
    ((calculateMaxPain maxPainCex 30 none).map fun r => r.maxPainStrike) = some 10 ∧
    (20 : ℚ) ∈ strikesOf maxPainCex 30 ∧
    claimPain maxPainCex 30 20 < claimPain maxPainCex 30 10 := by
  have h1 : claimPain maxPainCex 30 20 = -1000000 := by with_unfolding_all rfl
  have h2 : claimPain maxPainCex 30 10 = 0 := by with_unfolding_all rfl
  have h3 : strikesOf maxPainCex 30 = [10, 20] := by with_unfolding_all rfl
  refine ⟨by with_unfolding_all rfl, ?_, ?_⟩
  · rw [h3]
    simp
  · rw [h1, h2]
    norm_num

/-- Witness for C1 on a concrete nonnegative chain. -/
theorem calculateMaxPain_spec_witness :
    (∀ o ∈ maxPainWitnessOpts, 0 ≤ o.openInterest) ∧
    (∃ r, calculateMaxPain maxPainWitnessOpts 30 none = some r ∧
      r.maxPainStrike ∈ strikesOf maxPainWitnessOpts 30 ∧
      (∀ s ∈ strikesOf maxPainWitnessOpts 30,
        claimPain maxPainWitnessOpts 30 r.maxPainStrike ≤ claimPain maxPainWitnessOpts 30 s) ∧
      (∀ s ∈ strikesOf maxPainWitnessOpts 30,
        claimPain maxPainWitnessOpts 30 s = claimPain maxPainWitnessOpts 30 r.maxPainStrike →
        r.maxPainStrike ≤ s)) := by
  have hOI : ∀ o ∈ maxPainWitnessOpts, 0 ≤ o.openInterest := by
    intro o ho
    rw [maxPainWitnessOpts] at ho
    rcases List.mem_cons.mp ho with rfl | ho
    · norm_num
    · rcases List.mem_cons.mp ho with rfl | ho
      · norm_num
      · cases ho
  refine ⟨hOI, (calculateMaxPain_spec maxPainWitnessOpts 30 none hOI).2 ?_⟩
  exact ⟨maxPainWitnessOpts.head (by rw [maxPainWitnessOpts]; exact List.cons_ne_nil _ _),
    List.head_mem _, rfl⟩

/-! ## Claims C8, C9 and C10: the fallback cascade and the cache. -/

theorem rotationOrder_length (ps : List Provider) (idx : ℕ) :
    (rotationOrder ps idx).length = ps.length := by
  simp [rotationOrder]

theorem tryProviders_auth (ticker : String) (p : Provider) :
    ∀ (pre rest : List Provider), (∀ q ∈ pre, classifyAttempt ticker q = .otherErr) →
      classifyAttempt ticker p = .authErr →
      tryProviders ticker (pre ++ p :: rest) = (.authFail, pre.map (·.name) ++ [p.name]) := by
  intro pre
  induction pre with
  | nil =>
    intro rest _ hp
    simp [tryProviders, hp]
  | cons q pre ih =>
    intro rest hpre hp
    have hq : classifyAttempt ticker q = .otherErr := hpre q (List.mem_cons_self _ _)
    simp [tryProviders, hq, ih rest (fun r hr => hpre r (List.mem_cons_of_mem _ hr)) hp]

/-- With the sticky auth flag set, an equity request returns synthetic data
without touching any provider and leaves the manager unchanged. -/
theorem fetch_authFlag (genMock : String → OptionsChain) (mgr : ManagerState) (ticker : String)
    (hflag : mgr.authFailureDetected = true)
    (hcr : isCryptoTicker (ticker.toUpper.trim) = false) :
    fetchOptionsChain genMock mgr ticker = ⟨genMock (ticker.toUpper.trim), mgr, []⟩ := by
  rw [fetchOptionsChain]
  simp [hcr, hflag]

/-- C8: on the equity path, when the attempt sequence reaches a provider whose
failure is auth-class (after only non-auth failures), the cascade invokes
exactly the providers up to and including it, sets the sticky auth flag, and
returns the synthetic chain; and with the flag already set it returns
synthetic data invoking no provider at all. -/
theorem cascade_auth_short_circuit (genMock : String → OptionsChain) (mgr : ManagerState)
    (ticker : String) (pre : List Provider) (p : Provider) (rest : List Provider) :
    (mgr.authFailureDetected = false →
      isCryptoTicker (ticker.toUpper.trim) = false →
      rotationOrder mgr.providers mgr.currentProviderIndex = pre ++ p :: rest →
      (∀ q ∈ pre, classifyAttempt ticker q = .otherErr) →
      classifyAttempt ticker p = .authErr →
      fetchOptionsChain genMock mgr ticker =
        ⟨genMock (ticker.toUpper.trim),
         { mgr with authFailureDetected := true, hasWarnedAboutAuthFailure := true },
         pre.map (·.name) ++ [p.name]⟩) ∧
    (mgr.authFailureDetected = true → isCryptoTicker (ticker.toUpper.trim) = false →
      fetchOptionsChain genMock mgr ticker = ⟨genMock (ticker.toUpper.trim), mgr, []⟩) := by
  constructor
  · intro hflag hcr hrot hpre hp
    have hlen : ¬mgr.providers.length = 0 := by
      have hl := congrArg List.length hrot
      rw [rotationOrder_length] at hl
      simp only [List.length_append, List.length_cons] at hl
      omega
    rw [fetchOptionsChain]
    simp only [hrot, tryProviders_auth ticker p pre rest hpre hp]
    simp [hcr, hflag, hlen]
  · intro hflag hcr
    exact fetch_authFlag genMock mgr ticker hflag hcr

/-- Witness for C8: with providerA failing auth-class first, providerB is never
attempted, the flag becomes sticky, and the next request invokes nobody. -/
theorem cascade_auth_short_circuit_witness :
    fetchOptionsChain gmEx mgrEx "AAPL" =
      ⟨gmEx "AAPL",
       { mgrEx with authFailureDetected := true, hasWarnedAboutAuthFailure := true },
       ["providerA"]⟩ ∧
    fetchOptionsChain gmEx mgrExF "AAPL" = ⟨gmEx "AAPL", mgrExF, []⟩ := by
  constructor
  · exact (cascade_auth_short_circuit gmEx mgrEx "AAPL" [] provA [provB]).1 rfl
      (by with_unfolding_all rfl) (by with_unfolding_all rfl)
      (fun q hq => absurd hq (List.not_mem_nil q)) (by with_unfolding_all rfl)
  · exact (cascade_auth_short_circuit gmEx mgrExF "AAPL" [] provA [provB]).2 rfl
      (by with_unfolding_all rfl)

/-- C9: a forced-refresh request never consults the staleness check, always
invokes the fetch cascade, deletes the old entry before inserting, and leaves
the cache holding exactly the freshly fetched chain with the new timestamp. -/
theorem cache_forced_refresh (genMock : String → OptionsChain) (mgr : ManagerState)
    (cs : CacheState) (ticker : String) (nowMs : ℤ) (currentHour : ℚ) :
    (getCachedOptionsChain genMock mgr cs ticker true nowMs currentHour).events =
      [.cascadeFetch, .deleteEntry, .deleteMockFlag, .insertEntry] ∧
    CacheEvent.checkStaleness ∉
      (getCachedOptionsChain genMock mgr cs ticker true nowMs currentHour).events ∧
    (getCachedOptionsChain genMock mgr cs ticker true nowMs currentHour).data =
      (fetchOptionsChain genMock mgr (ticker.toUpper.trim)).chain ∧
    lookupA (getCachedOptionsChain genMock mgr cs ticker true nowMs
        currentHour).cacheState.cache (ticker.toUpper.trim) =
      some ⟨(fetchOptionsChain genMock mgr (ticker.toUpper.trim)).chain, nowMs,
        ticker.toUpper.trim⟩ := by
  refine ⟨?_, ?_, ?_, ?_⟩ <;>
    simp [getCachedOptionsChain, lookupA_setA_self]

/-- C10: a forced refresh deletes the cache entry and the per-ticker
synthetic-data flag but never clears the manager's sticky auth flag: with the
flag set, the refreshed entry is synthetic and no provider is invoked; any
request with the flag set returns synthetic data untouched; and the flag can
only fall back to `false` when a fetch through the manager succeeds (an
equity provider success, or a crypto merge collecting at least one result). -/
theorem sticky_auth_flag (genMock : String → OptionsChain) (mgr : ManagerState)
    (cs : CacheState) (ticker : String) (nowMs : ℤ) (currentHour : ℚ) :
    (mgr.authFailureDetected = true → isCryptoTicker (ticker.toUpper.trim) = false →
      (cs.usingMockData.map Prod.fst).Nodup → ticker.toUpper.trim = ticker →
      (getCachedOptionsChain genMock mgr cs ticker true nowMs currentHour).data =
        genMock (ticker.toUpper.trim) ∧
      (getCachedOptionsChain genMock mgr cs ticker true nowMs currentHour).invoked = [] ∧
      (getCachedOptionsChain genMock mgr cs ticker true nowMs
        currentHour).manager.authFailureDetected = true ∧
      lookupA (getCachedOptionsChain genMock mgr cs ticker true nowMs
        currentHour).cacheState.usingMockData (ticker.toUpper.trim) = none ∧
      lookupA (getCachedOptionsChain genMock mgr cs ticker true nowMs
        currentHour).cacheState.cache (ticker.toUpper.trim) =
        some ⟨genMock (ticker.toUpper.trim), nowMs, ticker.toUpper.trim⟩) ∧
    (mgr.authFailureDetected = true → isCryptoTicker (ticker.toUpper.trim) = false →
      fetchOptionsChain genMock mgr ticker = ⟨genMock (ticker.toUpper.trim), mgr, []⟩) ∧
    (mgr.authFailureDetected = true →
      (fetchOptionsChain genMock mgr ticker).manager.authFailureDetected = false →
      (isCryptoTicker (ticker.toUpper.trim) = true ∧
        (collectCrypto mgr.cryptoProviders).results ≠ []) ∨
      (isCryptoTicker (ticker.toUpper.trim) = false ∧ ∃ chain,
        (tryProviders ticker (rotationOrder mgr.providers mgr.currentProviderIndex)).1 =
          .success chain ∧ (fetchOptionsChain genMock mgr ticker).chain = chain)) := by
  refine ⟨?_, ?_, ?_⟩
  · intro hflag hcr hnd hnorm
    have hf : fetchOptionsChain genMock mgr (ticker.toUpper.trim) =
        ⟨genMock (ticker.toUpper.trim), mgr, []⟩ := by
      conv_lhs => rw [hnorm]
      exact fetch_authFlag genMock mgr ticker hflag hcr
    refine ⟨?_, ?_, ?_, ?_, ?_⟩ <;>
      simp [getCachedOptionsChain, hf, hflag, lookupA_setA_self, lookupA_delA_self _ _ hnd]
  · intro hflag hcr
    exact fetch_authFlag genMock mgr ticker hflag hcr
  · intro hflag hreset
    by_cases hcr : isCryptoTicker (ticker.toUpper.trim) = true
    · left
      refine ⟨hcr, ?_⟩
      intro hres
      have hfe : fetchOptionsChain genMock mgr ticker =
          ⟨genMock (ticker.toUpper.trim), mgr, mgr.cryptoProviders.map (·.name)⟩ := by
        rw [fetchOptionsChain]
        simp [hcr, hres]
      rw [hfe] at hreset
      rw [hflag] at hreset
      cases hreset
    · exfalso
      have hcr' : isCryptoTicker (ticker.toUpper.trim) = false := by
        simpa using hcr
      rw [fetch_authFlag genMock mgr ticker hflag hcr'] at hreset
      rw [hflag] at hreset
      cases hreset

/-- Witness for C10: a forced refresh under the sticky flag returns synthetic
data, invokes no provider, keeps the flag, and rewrites the cache; and a
crypto fetch that collects a result is the way the flag resets. -/
theorem sticky_auth_flag_witness :
    ((getCachedOptionsChain gmEx mgrExF csEmpty "AAPL" true 0 10).data =
        gmEx ("AAPL".toUpper.trim) ∧
      (getCachedOptionsChain gmEx mgrExF csEmpty "AAPL" true 0 10).invoked = [] ∧
      (getCachedOptionsChain gmEx mgrExF csEmpty "AAPL" true 0
        10).manager.authFailureDetected = true ∧
      lookupA (getCachedOptionsChain gmEx mgrExF csEmpty "AAPL" true 0
        10).cacheState.usingMockData ("AAPL".toUpper.trim) = none ∧
      lookupA (getCachedOptionsChain gmEx mgrExF csEmpty "AAPL" true 0
        10).cacheState.cache ("AAPL".toUpper.trim) =
        some ⟨gmEx ("AAPL".toUpper.trim), 0, "AAPL".toUpper.trim⟩) ∧
    ((isCryptoTicker ("BTC".toUpper.trim) = true ∧
        (collectCrypto mgrCr.cryptoProviders).results ≠ []) ∨
      (isCryptoTicker ("BTC".toUpper.trim) = false ∧ ∃ chain,
        (tryProviders "BTC" (rotationOrder mgrCr.providers mgrCr.currentProviderIndex)).1 =
          .success chain ∧ (fetchOptionsChain gmEx mgrCr "BTC").chain = chain)) := by
  constructor
  · exact (sticky_auth_flag gmEx mgrExF csEmpty "AAPL" 0 10).1 rfl
      (by with_unfolding_all rfl) (by simp [csEmpty]) (by with_unfolding_all rfl)
  · exact (sticky_auth_flag gmEx mgrCr csEmpty "BTC" 0 10).2.2 rfl
      (by with_unfolding_all rfl)
